import Mathlib

/-!
# Verification of the hybrid retrieval and ranking subsystem

Shallow embedding, in Lean 4, of the core of the `pdf-classaction-rag`
repository: the document/chunk data model (`models.py`), the re-ranking
stage (`reranker.py`), the ingestion coordinator (`ingestion.py`, both the
backend variant and the legacy variant), the embedding client
(`embeddings.py`) and the hybrid search engine.

Python floats are modelled as rationals (`ℚ`): every comparison the code
performs is a total-order comparison on finite values, which `ℚ` mirrors
exactly.  External services (the cross-encoder model, the Cohere rerank
API, the OpenAI embeddings API, the parser and chunker, the filesystem)
are oracles passed in as explicit parameters, so every theorem quantifies
over all of their possible behaviours.
-/

instance {ε α : Type} [DecidableEq ε] [DecidableEq α] : DecidableEq (Except ε α) :=
  fun a b =>
    match a, b with
    | .error e1, .error e2 =>
        if h : e1 = e2 then .isTrue (by rw [h]) else .isFalse (by intro hc; cases hc; exact h rfl)
    | .ok v1, .ok v2 =>
        if h : v1 = v2 then .isTrue (by rw [h]) else .isFalse (by intro hc; cases hc; exact h rfl)
    | .error _, .ok _ => .isFalse (by intro hc; cases hc)
    | .ok _, .error _ => .isFalse (by intro hc; cases hc)

namespace PdfRag

/-- Mirror of `IngestedDocument` (backend `models.py`): `id`, `file_hash`,
`file_path`, `metadata`, `created_at`.  Identifiers and timestamps are
naturals; metadata is an association list opaque to the core. -/
structure IngestedDocumentM where
  id : Nat
  file_hash : String
  file_path : String
  metadata : List (String × String) := []
  created_at : Nat := 0
deriving Repr, DecidableEq, Inhabited

/-- Mirror of `ChunkRecord` (backend `models.py`): the persisted retrieval
unit.  The pydantic `bbox` validator is modelled separately by
`validate_bbox` / `mkChunkRecord`. -/
structure ChunkRecordM where
  id : Option Nat := none
  document_id : Nat
  content : String
  chunk_type : Option String := none
  page_number : Option Nat := none
  position : Option Nat := none
  embedding : Option (List ℚ) := none
  bbox : Option (List ℚ) := none
  created_at : Option Nat := none
deriving Repr, DecidableEq, Inhabited

/-- Mirror of `SearchResult` (backend `models.py`): a chunk, a relevance
score and the owning document (absent if deleted mid-query). -/
structure SearchResultM where
  chunk : ChunkRecordM
  score : ℚ
  document : Option IngestedDocumentM := none
deriving Repr, DecidableEq, Inhabited

/-- Mirror of `ChunkRecord.validate_bbox` (backend `models.py`): a bbox,
when provided, must have exactly 4 coordinates; pydantic raises a
`ValueError` at construction otherwise. -/
def validate_bbox (v : Option (List ℚ)) : Except String (Option (List ℚ)) :=
  match v with
  | some l =>
      if l.length ≠ 4 then
        .error "bbox must contain exactly 4 coordinates [x0, y0, x1, y1]"
      else .ok (some l)
  | none => .ok none

/-- Constructing a `ChunkRecord` runs the pydantic field validator on
`bbox`; construction fails exactly when the validator raises. -/
def mkChunkRecord (document_id : Nat) (content : String)
    (chunk_type : Option String) (page_number : Option Nat)
    (position : Option Nat) (embedding : Option (List ℚ))
    (bbox : Option (List ℚ)) : Except String ChunkRecordM :=
  (validate_bbox bbox).map fun v =>
    { document_id := document_id, content := content,
      chunk_type := chunk_type, page_number := page_number,
      position := position, embedding := embedding, bbox := v }

/-! ## Re-ranking stage (`reranker.py`) -/

/-- Descending comparison on the score component of a scored pair, the key
used by `scored.sort(key=lambda x: x[0], reverse=True)` in
`CrossEncoderReranker.rerank`. -/
def scoreGE (x y : ℚ × SearchResultM) : Prop := y.1 ≤ x.1

instance : DecidableRel scoreGE := fun x y => inferInstanceAs (Decidable (y.1 ≤ x.1))

instance : IsTotal (ℚ × SearchResultM) scoreGE := ⟨fun a b => le_total b.1 a.1⟩

instance : IsTrans (ℚ × SearchResultM) scoreGE :=
  ⟨fun _ _ _ hab hbc => le_trans hbc hab⟩

/-- Mirror of `CrossEncoderReranker.rerank` (backend `reranker.py`).  The
cross-encoder pairs each candidate's content with the query in input order
and returns one score per pair; `scores` is that model output (the oracle),
assumed elsewhere to have one entry per candidate.  The code zips scores
with candidates, sorts by score descending (Python's sort is stable;
`List.insertionSort` with a non-strict descending key matches it), takes
`top_k`, and rebuilds `SearchResult`s whose score is the model score. -/
def crossEncoderRerank (scores : List ℚ) (results : List SearchResultM)
    (top_k : Nat) : List SearchResultM :=
  if results.isEmpty then []
  else
    let scored := List.zip scores results
    let sorted := List.insertionSort scoreGE scored
    let truncated := sorted.take top_k
    truncated.map fun p =>
      { chunk := p.2.chunk, score := p.1, document := p.2.document }

/-- One entry of the Cohere rerank API response: the index of the
candidate it refers to, and the API's own relevance score. -/
structure CohereRerankItem where
  index : Nat
  relevance_score : ℚ
deriving Repr, DecidableEq, Inhabited

/-- The body of the loop in `CohereReranker.rerank` that rebuilds the
output from the API response: `original = results[item.index]` followed by
appending a `SearchResult` carrying the original chunk and document with
the response's relevance score.  An out-of-range index is Python's
`IndexError`. -/
def cohereCollect (results : List SearchResultM) :
    List CohereRerankItem → Except String (List SearchResultM)
  | [] => .ok []
  | item :: rest =>
      match results.get? item.index with
      | some original =>
          (cohereCollect results rest).map fun tail =>
            { chunk := original.chunk, score := item.relevance_score,
              document := original.document } :: tail
      | none => .error "list index out of range"

/-- Mirror of `CohereReranker.rerank` (backend `reranker.py`).  The remote
API receives the query, all candidate contents and `top_n = top_k`, and
answers with `response` — a list of (index, relevance score) items; that
response is the oracle here.  Empty candidates short-circuit to `[]`
before any API call. -/
def cohereRerank (response : List CohereRerankItem)
    (results : List SearchResultM) : Except String (List SearchResultM) :=
  if results.isEmpty then .ok []
  else cohereCollect results response

/-- The `SearchResult` that `CohereReranker.rerank` builds for one
response item, assuming the index is in range. -/
def cohereEntry (results : List SearchResultM) (item : CohereRerankItem) :
    SearchResultM :=
  let original := (results.get? item.index).getD default
  { chunk := original.chunk, score := item.relevance_score,
    document := original.document }

/-! ## Document/chunk store (the slice of the store the ingestion
coordinator uses: `insert_document`, `get_document_by_hash`,
`delete_document`, `update_document_status`, `insert_chunks`).  Each write
is transactional in the source — on failure it rolls back completely — so
a failing write is modelled as leaving the state untouched. -/

/-- One row of the `documents` table, status lifecycle included
(`processing` → `processed` | `error`). -/
structure DocRow where
  id : Nat
  file_hash : String
  file_path : String
  status : String
  error_message : Option String := none
deriving Repr, DecidableEq, Inhabited

/-- The visible state of the store: the documents table, the chunks table,
and the next fresh document identifier. -/
structure DBState where
  docs : List DocRow := []
  chunks : List ChunkRecordM := []
  next_id : Nat := 0
deriving Repr, DecidableEq, Inhabited

/-- `SELECT ... FROM documents WHERE file_hash = %s` (first row). -/
def get_document_by_hash (s : DBState) (h : String) : Option DocRow :=
  s.docs.find? fun d => d.file_hash == h

/-- `INSERT INTO documents ...`: a fresh row, born in `processing`. -/
def insert_document (s : DBState) (h p : String) : DocRow × DBState :=
  let d : DocRow := { id := s.next_id, file_hash := h, file_path := p,
                      status := "processing" }
  (d, { s with docs := s.docs ++ [d], next_id := s.next_id + 1 })

/-- `DELETE FROM documents WHERE id = %s`, cascading to chunks; reports
whether a row was actually removed. -/
def delete_document (s : DBState) (did : Nat) : Bool × DBState :=
  if s.docs.any (fun d => d.id == did) then
    (true, { s with docs := s.docs.filter (fun d => d.id != did),
                    chunks := s.chunks.filter (fun c => c.document_id != did) })
  else (false, s)

/-- `UPDATE documents SET status = ... WHERE id = %s`. -/
def update_document_status (s : DBState) (did : Nat) (st : String)
    (msg : Option String) : DBState :=
  { s with docs := s.docs.map fun d =>
      if d.id == did then { d with status := st, error_message := msg } else d }

/-- Bulk chunk insert; empty input is a no-op returning `[]`. -/
def insert_chunks (s : DBState) (cs : List ChunkRecordM) :
    List ChunkRecordM × DBState :=
  if cs.isEmpty then ([], s)
  else (cs, { s with chunks := s.chunks ++ cs })

/-! ## Ingestion coordinator (backend `ingestion.py`) -/

/-- Absolute filesystem paths as component lists. -/
abbrev PathM := List String

/-- The filesystem oracle: `Path.resolve` (symlinks and relative segments
followed), existence, and the SHA-256 content hash of the file at a path
(`compute_file_hash` streams the file; only the resulting digest matters
to the coordinator). -/
structure FileSystemM where
  resolve : PathM → PathM
  pathExists : PathM → Bool
  hashOf : PathM → String

/-- `Path.is_relative_to` on two resolved absolute paths: the candidate
can be expressed relative to the directory, i.e. the directory's
components are a prefix of the path's. -/
def is_relative_to (p d : PathM) : Bool := d.isPrefixOf p

/-- The exceptions `ingest_document` can surface: `FileNotFoundError`,
`PathValidationError`, or any exception from the processing steps. -/
inductive IngestError
  | fileNotFound (p : PathM)
  | pathValidation (p : PathM)
  | step (msg : String)
deriving Repr, DecidableEq

/-- Mirror of `validate_file_path` (backend `ingestion.py`): resolve, then
reject a missing file (`FileNotFoundError`) before checking, when an
allowed-directories list is given, that the resolved path lies inside one
of the resolved allowed directories (`PathValidationError` otherwise). -/
def validate_file_path (fs : FileSystemM) (p : PathM)
    (allowed_dirs : Option (List PathM)) : Except IngestError PathM :=
  let resolved := fs.resolve p
  if !fs.pathExists resolved then .error (.fileNotFound resolved)
  else
    match allowed_dirs with
    | none => .ok resolved
    | some dirs =>
        let allowed_resolved := dirs.map fs.resolve
        if allowed_resolved.any (fun d => is_relative_to resolved d) then
          .ok resolved
        else .error (.pathValidation resolved)

/-- Mirror of `compute_file_hash`: existence check then digest. -/
def compute_file_hash (fs : FileSystemM) (p : PathM) : Except IngestError String :=
  if !fs.pathExists p then .error (.fileNotFound p)
  else .ok (fs.hashOf p)

/-- One chunk as produced by the external chunker (`ChunkData` in
`chunking.py`); `embedding` is set in place by step 6 of ingestion. -/
structure ChunkData where
  content : String
  chunk_type : String
  page_number : Nat
  position : Nat
  bbox : Option (List ℚ) := none
  embedding : Option (List ℚ) := none
deriving Repr, DecidableEq, Inhabited

/-- Mirror of `EmbeddingResult` (`embeddings.py`): one optional vector per
input text, plus which indices failed and why. -/
structure EmbeddingResultM where
  embeddings : List (Option (List ℚ)) := []
  failed_indices : List Nat := []
  errors : List (Nat × String) := []
deriving Repr, DecidableEq, Inhabited

/-- Outcomes of the external steps and of the fallible store writes during
one `ingest_document` run: the parser, the chunker and the embedding
client either return a value or raise, and each store write either
succeeds or raises the recorded message. -/
structure StepEnv where
  parse : Except String Unit
  chunk : Except String (List ChunkData)
  hasEmbeddingClient : Bool
  embed : Except String EmbeddingResultM
  insertChunksErr : Option String := none
  updateProcessedErr : Option String := none
  updateErrorErr : Option String := none
deriving Repr, DecidableEq, Inhabited

/-- Mirror of `IngestResult` (backend `ingestion.py`). -/
structure IngestResultM where
  document : Option DocRow := none
  chunks_count : Nat := 0
  was_duplicate : Bool := false
  error : Option String := none
deriving Repr, DecidableEq, Inhabited

/-- Observable milestones of one ingestion run, used to state that
rejected paths are turned away before any hashing or parsing. -/
inductive Event
  | validated
  | hashed
  | parsed
  | chunked
  | embedded
  | chunksInserted
  | statusUpdated
deriving Repr, DecidableEq

/-- Step 6 of `ingest_document`: when an embedding client is configured
and there are chunks, call it on the chunk contents; a count mismatch
between returned embeddings and chunks is a fatal `ValueError`; otherwise
each chunk receives its embedding positionally. -/
def embedChunks (env : StepEnv) (chunk_data_list : List ChunkData) :
    Except String (List ChunkData) :=
  if env.hasEmbeddingClient && !chunk_data_list.isEmpty then
    match env.embed with
    | .error e => .error e
    | .ok er =>
        if er.embeddings.length ≠ chunk_data_list.length then
          .error ("Embedding count mismatch: expected " ++
            toString chunk_data_list.length ++ ", got " ++
            toString er.embeddings.length)
        else
          .ok (List.zipWith (fun (cd : ChunkData) emb => { cd with embedding := emb })
            chunk_data_list er.embeddings)
  else .ok chunk_data_list

/-- Step 7's list comprehension building `ChunkRecord` objects: pydantic
validation runs per record and the first failure raises. -/
def buildChunkRecords (docId : Nat) : List ChunkData → Except String (List ChunkRecordM)
  | [] => .ok []
  | cd :: rest =>
      match mkChunkRecord docId cd.content (some cd.chunk_type)
        (some cd.page_number) (some cd.position) cd.embedding cd.bbox with
      | .error e => .error e
      | .ok r => (buildChunkRecords docId rest).map fun tail => r :: tail

/-- The `try` body of `ingest_document` (steps 4–8): parse, chunk, embed,
build and persist chunk records, then mark the document `processed`.  Any
step may raise; the state reached so far and the emitted events are
returned alongside the outcome. -/
def tryBody (env : StepEnv) (doc : DocRow) (s : DBState) :
    Except String IngestResultM × DBState × List Event :=
  match env.parse with
  | .error e => (.error e, s, [])
  | .ok _ =>
    match env.chunk with
    | .error e => (.error e, s, [.parsed])
    | .ok chunk_data_list =>
      match embedChunks env chunk_data_list with
      | .error e => (.error e, s, [.parsed, .chunked])
      | .ok embedded_chunks =>
        match buildChunkRecords doc.id embedded_chunks with
        | .error e => (.error e, s, [.parsed, .chunked, .embedded])
        | .ok chunk_records =>
          match env.insertChunksErr with
          | some e => (.error e, s, [.parsed, .chunked, .embedded])
          | none =>
            let ins := insert_chunks s chunk_records
            match env.updateProcessedErr with
            | some e => (.error e, ins.2, [.parsed, .chunked, .embedded, .chunksInserted])
            | none =>
              let s3 := update_document_status ins.2 doc.id "processed" none
              (.ok { document := some doc, chunks_count := ins.1.length,
                     was_duplicate := false },
               s3, [.parsed, .chunked, .embedded, .chunksInserted, .statusUpdated])

/-- The `except Exception` handler wrapped around the try body: on any
exception, best-effort update of the document's status to `error` carrying
the exception's message (a failure of that update is swallowed), then the
original exception is re-raised. -/
def runInsertedDoc (env : StepEnv) (doc : DocRow) (s : DBState) (ev : List Event) :
    Except IngestError IngestResultM × DBState × List Event :=
  match tryBody env doc s with
  | (.ok r, s2, evs) => (.ok r, s2, ev ++ evs)
  | (.error e, s2, evs) =>
      let s3 := match env.updateErrorErr with
        | some _ => s2
        | none => update_document_status s2 doc.id "error" (some e)
      (.error (.step e), s3, ev ++ evs)

/-- Steps 3–8 for a file that is not a duplicate: create the `processing`
document row, then run the try body under the error handler. -/
def ingestNew (env : StepEnv) (fp : PathM) (file_hash : String) (s : DBState)
    (ev : List Event) : Except IngestError IngestResultM × DBState × List Event :=
  let ins := insert_document s file_hash (String.intercalate "/" fp)
  runInsertedDoc env ins.1 ins.2 ev

/-- Mirror of `ingest_document` (backend `ingestion.py`): optional path
validation, content hashing, duplicate detection (with the
delete-and-retry path for a stale `error` document and the re-fetch when a
concurrent request already deleted it), then document creation and the
guarded processing steps. -/
def ingest_document (fs : FileSystemM) (env : StepEnv)
    (allowed_dirs : Option (List PathM)) (file_path : PathM) (s : DBState) :
    Except IngestError IngestResultM × DBState × List Event :=
  match (match allowed_dirs with
         | none => Except.ok file_path
         | some dirs => validate_file_path fs file_path (some dirs)) with
  | .error pe => (.error pe, s, [])
  | .ok fp =>
    let ev0 : List Event := match allowed_dirs with
      | none => []
      | some _ => [.validated]
    match compute_file_hash fs fp with
    | .error e => (.error e, s, ev0)
    | .ok file_hash =>
      let ev1 := ev0 ++ [Event.hashed]
      match get_document_by_hash s file_hash with
      | some existing =>
          if existing.status == "error" then
            let del := delete_document s existing.id
            if del.1 then
              ingestNew env fp file_hash del.2 ev1
            else
              match get_document_by_hash del.2 file_hash with
              | some existing2 =>
                  (.ok { document := some existing2, chunks_count := 0,
                         was_duplicate := true }, del.2, ev1)
              | none => ingestNew env fp file_hash del.2 ev1
          else
            (.ok { document := some existing, chunks_count := 0,
                   was_duplicate := true }, s, ev1)
      | none => ingestNew env fp file_hash s ev1

/-! ## Batch ingestion (`RAGIngestionPipeline.ingest_batch`) -/

/-- The per-file outcome oracle of one batch run: what `self.ingest` (or
`self._ingest_worker`) returns — or, as `.error`, the exception it raises —
for the i-th input file. -/
def batchEntry (outcome : Nat → Except String IngestResultM) (i : Nat) :
    IngestResultM :=
  match outcome i with
  | .ok r => r
  | .error e => { error := some e }

/-- Mirror of backend `RAGIngestionPipeline.ingest_batch`: an index-keyed
results dictionary is filled either in input order (sequential branch,
`max_workers = 1`) or in completion order (`as_completed` over the worker
pool — an arbitrary permutation of the indices, the oracle
`completion_order`); either way a file that raises contributes
`IngestResult(error=str(e))` instead of aborting the batch, and the final
list is reassembled as `[results_dict[i] for i in range(total)]`. -/
def ingest_batch (outcome : Nat → Except String IngestResultM) (total : Nat)
    (max_workers : Nat) (completion_order : List Nat) : List IngestResultM :=
  if total = 0 then []
  else
    let results_dict : List (Nat × IngestResultM) :=
      if max_workers = 1 then
        (List.range total).map (fun i => (i, batchEntry outcome i))
      else
        completion_order.map (fun i => (i, batchEntry outcome i))
    (List.range total).map fun i =>
      (((results_dict.find? (fun pr => pr.1 == i)).map (fun pr => pr.2)).getD {})

/-- Mirror of the legacy `IngestResult` (src variant `ingestion.py`): the
document is mandatory and there is no error field. -/
structure LegacyIngestResultM where
  document : DocRow
  chunks_count : Nat
  was_duplicate : Bool := false
deriving Repr, DecidableEq, Inhabited

/-- Mirror of the legacy `RAGIngestionPipeline.ingest_batch` (src variant
`ingestion.py`): strictly sequential; when a file's ingestion raises, the
exception is logged and the loop continues — no entry is appended for that
file. -/
def legacy_ingest_batch (outcome : Nat → Except String LegacyIngestResultM)
    (total : Nat) : List LegacyIngestResultM :=
  (List.range total).foldl
    (fun results i =>
      match outcome i with
      | .ok r => results ++ [r]
      | .error _ => results) []

/-! ## Embedding client (`embeddings.py`) -/

/-- `estimate_tokens`: the 4-characters-per-token approximation. -/
def estimate_tokens (text : String) : Nat := text.length / 4

def MAX_TOKENS_PER_BATCH : Nat := 100000

def MAX_RETRIES : Nat := 3

/-- One iteration of the loop in `_split_into_batches`. -/
def splitStep (st : List (List String) × List String × Nat) (text : String) :
    List (List String) × List String × Nat :=
  let batches := st.1
  let current_batch := st.2.1
  let current_tokens := st.2.2
  let text_tokens := estimate_tokens text
  if text_tokens ≥ MAX_TOKENS_PER_BATCH then
    if current_batch.isEmpty then (batches ++ [[text]], [], 0)
    else (batches ++ [current_batch, [text]], [], 0)
  else if current_tokens + text_tokens > MAX_TOKENS_PER_BATCH then
    (batches ++ [current_batch], [text], text_tokens)
  else (batches, current_batch ++ [text], current_tokens + text_tokens)

/-- Mirror of `EmbeddingClient._split_into_batches`: split the texts into
consecutive batches under the token budget, oversized texts alone in their
own batch, the trailing partial batch appended at the end. -/
def _split_into_batches (texts : List String) : List (List String) :=
  let st := texts.foldl splitStep ([], [], 0)
  if st.2.1.isEmpty then st.1 else st.1 ++ [st.2.1]

/-- The recursion underlying `_get_batch_indices`, carrying `current_idx`. -/
def getBatchIndicesFrom (cur : Nat) : List (List String) → List (List Nat)
  | [] => []
  | b :: rest => List.range' cur b.length :: getBatchIndicesFrom (cur + b.length) rest

/-- Mirror of `EmbeddingClient._get_batch_indices`: consecutive index
ranges, one per batch (the `texts` argument is unused in the source too —
only batch lengths matter). -/
def _get_batch_indices (batches : List (List String)) : List (List Nat) :=
  getBatchIndicesFrom 0 batches

/-- One OpenAI embeddings API call outcome, per attempt: success carries
`response.data` as (index, embedding) pairs; the three failure shapes are
a 429 rate limit, an HTTP status error, and any other exception. -/
inductive ApiOutcome
  | success (data : List (Nat × List ℚ))
  | rateLimit (msg : String)
  | apiStatus (code : Nat) (msg : String)
  | other (msg : String)
deriving Repr, DecidableEq, Inhabited

/-- `embeddings = [None] * len(texts)` then `embeddings[item.index] =
item.embedding` per response item (response indices are produced by the
API for the request's own texts, hence in range; an out-of-range index
would be an `IndexError` in the source, and is a no-op here). -/
def fillEmbeddings (n : Nat) (data : List (Nat × List ℚ)) :
    List (Option (List ℚ)) :=
  data.foldl (fun embs item => embs.set item.1 (some item.2))
    (List.replicate n none)

/-- What one call to `_generate_batch_with_retry` returns: one optional
embedding per text of the batch, plus the error message if the batch
failed. -/
structure BatchOut where
  embeddings : List (Option (List ℚ))
  error : Option String
deriving Repr, DecidableEq, Inhabited

/-- The retry loop of `_generate_batch_with_retry`: up to `MAX_RETRIES`
attempts; rate limits and 5xx statuses back off and retry, other statuses
and unexpected exceptions return `[None] * len(texts)` with the error, a
success fills the embeddings from the response, and exhausted retries
return the last error. -/
def retryLoop (api : Nat → ApiOutcome) (texts : List String) :
    Nat → Nat → Option String → BatchOut
  | 0, _, last_error => ⟨List.replicate texts.length none, last_error⟩
  | fuel + 1, attempt, _ =>
      match api attempt with
      | .success data => ⟨fillEmbeddings texts.length data, none⟩
      | .rateLimit msg => retryLoop api texts fuel (attempt + 1) (some msg)
      | .apiStatus code msg =>
          if code ≥ 500 then retryLoop api texts fuel (attempt + 1) (some msg)
          else ⟨List.replicate texts.length none, some msg⟩
      | .other msg => ⟨List.replicate texts.length none, some msg⟩

/-- Mirror of `EmbeddingClient._generate_batch_with_retry` with the API
behaviour as the per-attempt oracle. -/
def _generate_batch_with_retry (api : Nat → ApiOutcome) (texts : List String) :
    BatchOut :=
  retryLoop api texts MAX_RETRIES 0 none

/-- Merging one batch result into the overall `EmbeddingResult`:
`result.embeddings[i] = embedding` positionally, and on a batch error
every index of the batch is appended to `failed_indices` with its error
message. -/
def mergeBatch (res : EmbeddingResultM) (indices : List Nat) (br : BatchOut) :
    EmbeddingResultM :=
  let embs := (List.zip indices br.embeddings).foldl
    (fun l pr => l.set pr.1 pr.2) res.embeddings
  match br.error with
  | none => { res with embeddings := embs }
  | some e =>
      { embeddings := embs,
        failed_indices := res.failed_indices ++ indices,
        errors := res.errors ++ indices.map (fun i => (i, e)) }

/-- The `for batch_idx, (batch, indices) in enumerate(zip(batches,
batch_indices))` loop of `generate_embeddings`. -/
def genLoop (api : Nat → Nat → ApiOutcome) :
    List (List String × List Nat) → Nat → EmbeddingResultM → EmbeddingResultM
  | [], _, res => res
  | (batch, indices) :: rest, batch_idx, res =>
      genLoop api rest (batch_idx + 1)
        (mergeBatch res indices (_generate_batch_with_retry (api batch_idx) batch))

/-- Mirror of `EmbeddingClient.generate_embeddings`: empty input
short-circuits; otherwise split into batches, embed each batch with
retries (the API is the oracle, per batch and per attempt), and merge the
batch results into a single `EmbeddingResult` pre-sized to the input. -/
def generate_embeddings (api : Nat → Nat → ApiOutcome) (texts : List String) :
    EmbeddingResultM :=
  if texts.isEmpty then {}
  else
    let batches := _split_into_batches texts
    let batch_indices := _get_batch_indices batches
    genLoop api (List.zip batches batch_indices) 0
      { embeddings := List.replicate texts.length none }

/-! ## Hybrid search engine

The backend store (`PgVectorStore` with `hybrid_search`, `_bm25_search`
and the vector leg) is exercised by `tests/test_rag_database.py` but its
implementation file is not part of the source tree, so this component is
modelled from the spec (§4.1–4.2). -/

/-- Descending comparison on `SearchResult` scores, the ordering of every
search result list. -/
def resultGE (x y : SearchResultM) : Prop := y.score ≤ x.score

instance : DecidableRel resultGE := fun x y => inferInstanceAs (Decidable (y.score ≤ x.score))

instance : IsTotal SearchResultM resultGE := ⟨fun a b => le_total b.score a.score⟩

instance : IsTrans SearchResultM resultGE :=
  ⟨fun _ _ _ hab hbc => le_trans hbc hab⟩

/-- Modelled from the spec: `vector_search` (§4.1; implementation missing
from the source tree) returns up to `top_k` chunks that have a non-null
embedding, ordered by descending similarity (`1 − cosine_distance`,
supplied by the storage engine's similarity operator `sim`), each paired
with its document. -/
def vector_search (sim : List ℚ → List ℚ → ℚ)
    (rows : List (ChunkRecordM × IngestedDocumentM))
    (query_embedding : List ℚ) (top_k : Nat) : List SearchResultM :=
  ((List.insertionSort resultGE
    ((rows.filter (fun r => r.1.embedding.isSome)).map fun r =>
      { chunk := r.1, score := sim (r.1.embedding.getD []) query_embedding,
        document := some r.2 })).take top_k)

/-- Modelled from the spec: `lexical_search` (§4.1; implementation missing
from the source tree) ranks chunks by a lexical relevance function over
`content`; chunks with no matching term are excluded entirely (`lex`
returns `none`), the rest are ordered by descending score and truncated to
`top_k`. -/
def lexical_search (lex : String → String → Option ℚ)
    (rows : List (ChunkRecordM × IngestedDocumentM))
    (query_text : String) (top_k : Nat) : List SearchResultM :=
  ((List.insertionSort resultGE
    (rows.filterMap fun r =>
      (lex query_text r.1.content).map fun sc =>
        { chunk := r.1, score := sc, document := some r.2 })).take top_k)

/-- Modelled from the spec: the fused score of a chunk present in both
legs must be monotonic in both inputs (§4.2); the sum is one such fusion. -/
def fuseScore (v l : ℚ) : ℚ := v + l

/-- Modelled from the spec: the merge step of `hybrid_search` (§4.2) —
candidates are merged by chunk identity, a chunk present in both legs is
emitted once with a fused score, and lexical-only candidates follow. -/
def mergeDedup (vec lexr : List SearchResultM) : List SearchResultM :=
  (vec.map fun v =>
    match lexr.find? (fun l => l.chunk.id == v.chunk.id) with
    | some l => { v with score := fuseScore v.score l.score }
    | none => v)
  ++ lexr.filter (fun l => !(vec.any (fun v => v.chunk.id == l.chunk.id)))

/-- Modelled from the spec: `hybrid_search` (§4.2; implementation missing
from the source tree, exercised by `TestHybridSearch`) — run both legs,
merge and deduplicate by chunk identity, sort by fused score descending,
truncate to `top_k`. -/
def hybrid_search (sim : List ℚ → List ℚ → ℚ) (lex : String → String → Option ℚ)
    (rows : List (ChunkRecordM × IngestedDocumentM))
    (query_embedding : List ℚ) (query_text : String) (top_k : Nat) :
    List SearchResultM :=
  let vec := vector_search sim rows query_embedding top_k
  let lexr := lexical_search lex rows query_text top_k
  (List.insertionSort resultGE (mergeDedup vec lexr)).take top_k

/-! ## Theorems -/

theorem cohereCollect_ok (results : List SearchResultM) :
    ∀ response : List CohereRerankItem,
      (∀ item ∈ response, item.index < results.length) →
      cohereCollect results response = .ok (response.map (cohereEntry results))
  | [], _ => rfl
  | item :: rest, h => by
      have hidx : item.index < results.length := h item (List.mem_cons_self ..)
      have hrest := cohereCollect_ok results rest
        (fun i hi => h i (List.mem_cons_of_mem _ hi))
      have horig : results.get? item.index = some (results.get ⟨item.index, hidx⟩) :=
        List.get?_eq_get hidx
      simp only [cohereCollect, horig, hrest, Except.map, List.map_cons]
      simp only [cohereEntry, List.get?_eq_getElem?] at horig ⊢
      simp [horig]

theorem cohereRerank_ok (results : List SearchResultM)
    (response : List CohereRerankItem)
    (h : ∀ item ∈ response, item.index < results.length) :
    cohereRerank response results = .ok (response.map (cohereEntry results)) := by
  unfold cohereRerank
  by_cases he : results.isEmpty
  · cases response with
    | nil => simp [he]
    | cons item rest =>
        have := h item (List.mem_cons_self ..)
        rw [List.isEmpty_iff] at he
        simp [he] at this
  · rw [if_neg he]
    exact cohereCollect_ok results response h

theorem mem_crossEncoderRerank {scores : List ℚ} {results : List SearchResultM}
    {top_k : Nat} {r : SearchResultM}
    (hr : r ∈ crossEncoderRerank scores results top_k) :
    ∃ s x, s ∈ scores ∧ x ∈ results ∧
      r = { chunk := x.chunk, score := s, document := x.document } := by
  unfold crossEncoderRerank at hr
  by_cases he : results.isEmpty
  · simp [he] at hr
  · rw [if_neg he] at hr
    obtain ⟨p, hp, hmap⟩ := List.mem_map.1 hr
    have hp2 : p ∈ List.insertionSort scoreGE (List.zip scores results) :=
      List.mem_of_mem_take hp
    have hp3 : p ∈ List.zip scores results := (List.mem_insertionSort _).1 hp2
    obtain ⟨hs, hx⟩ := List.of_mem_zip hp3
    exact ⟨p.1, p.2, hs, hx, hmap.symm⟩

theorem crossEncoderRerank_sorted (scores : List ℚ) (results : List SearchResultM)
    (top_k : Nat) :
    ((crossEncoderRerank scores results top_k).map (·.score)).Pairwise (· ≥ ·) := by
  unfold crossEncoderRerank
  by_cases he : results.isEmpty
  · simp [he]
  · rw [if_neg he, List.map_map]
    have hsorted : (List.insertionSort scoreGE (List.zip scores results)).Pairwise scoreGE :=
      List.sorted_insertionSort scoreGE (List.zip scores results)
    have htake := hsorted.sublist
      (List.take_sublist top_k (List.insertionSort scoreGE (List.zip scores results)))
    refine (List.pairwise_map).2 (htake.imp ?_)
    intro a b hab
    exact hab

theorem crossEncoderRerank_length (scores : List ℚ) (results : List SearchResultM)
    (top_k : Nat) (h : scores.length = results.length) :
    (crossEncoderRerank scores results top_k).length = min top_k results.length := by
  unfold crossEncoderRerank
  by_cases he : results.isEmpty
  · rw [if_pos he]
    rw [List.isEmpty_iff] at he
    simp [he]
  · rw [if_neg he]
    simp only [List.length_map, List.length_take,
      List.length_insertionSort, List.length_zip, h, min_self]

/-- C4: for every query, candidate list and `top_k`, `rerank` returns
exactly `min top_k candidates.length` results, listed in non-increasing
order of score, and every returned score is the reranker's own score.  The
cross-encoder variant holds for any model output with one score per
candidate; the API variant holds for any API response that honours the
documented rerank contract (valid indices, `top_n = top_k` results, sorted
by descending relevance). -/
theorem rerank_length_and_order :
    (∀ (scores : List ℚ) (results : List SearchResultM) (top_k : Nat),
      scores.length = results.length →
      (crossEncoderRerank scores results top_k).length = min top_k results.length ∧
      ((crossEncoderRerank scores results top_k).map (·.score)).Pairwise (· ≥ ·) ∧
      ∀ r ∈ crossEncoderRerank scores results top_k, r.score ∈ scores)
    ∧
    (∀ (response : List CohereRerankItem) (results : List SearchResultM) (top_k : Nat),
      (∀ item ∈ response, item.index < results.length) →
      response.length = min top_k results.length →
      (response.map (·.relevance_score)).Pairwise (· ≥ ·) →
      ∃ out, cohereRerank response results = .ok out ∧
        out.length = min top_k results.length ∧
        (out.map (·.score)).Pairwise (· ≥ ·) ∧
        ∀ j, (out.get? j).map (·.score) = (response.get? j).map (·.relevance_score)) := by
  constructor
  · intro scores results top_k h
    refine ⟨crossEncoderRerank_length scores results top_k h,
      crossEncoderRerank_sorted scores results top_k, ?_⟩
    intro r hr
    obtain ⟨s, x, hs, _, hre⟩ := mem_crossEncoderRerank hr
    rw [hre]
    exact hs
  · intro response results top_k hidx hlen hsorted
    refine ⟨response.map (cohereEntry results), cohereRerank_ok results response hidx,
      ?_, ?_, ?_⟩
    · rw [List.length_map]
      exact hlen
    · rw [List.map_map]
      exact hsorted
    · intro j
      simp only [List.get?_eq_getElem?, List.getElem?_map]
      cases response[j]? <;> rfl

/-- Closed instance of C4: the cross-encoder leg at two candidates with
scores 1 and 2 and `top_k = 1`. -/
theorem rerank_length_and_order_witness :
    (([(1 : ℚ), 2].length =
        ([⟨{ document_id := 1, content := "a" }, 0, none⟩,
          ⟨{ document_id := 1, content := "b" }, 0, none⟩] : List SearchResultM).length) ∧
     (crossEncoderRerank [(1 : ℚ), 2]
        [⟨{ document_id := 1, content := "a" }, 0, none⟩,
         ⟨{ document_id := 1, content := "b" }, 0, none⟩] 1).length = min 1 2) ∧
    ((crossEncoderRerank [(1 : ℚ), 2]
        [⟨{ document_id := 1, content := "a" }, 0, none⟩,
         ⟨{ document_id := 1, content := "b" }, 0, none⟩] 1).map (·.score)).Pairwise (· ≥ ·) := by
  have h := (rerank_length_and_order.1 [(1 : ℚ), 2]
    [⟨{ document_id := 1, content := "a" }, 0, none⟩,
     ⟨{ document_id := 1, content := "b" }, 0, none⟩] 1 (by decide))
  exact ⟨⟨by decide, h.1⟩, h.2.1⟩

/-- C5: the API-backed reranker maps response indices back to the original
candidates — the j-th output pairs the chunk and document of the candidate
at the j-th response item's index with that item's relevance score, for
any response whose indices are in range (no order-preservation assumed). -/
theorem cohere_rerank_maps_indices_back :
    ∀ (response : List CohereRerankItem) (results : List SearchResultM),
      (∀ item ∈ response, item.index < results.length) →
      ∃ out, cohereRerank response results = .ok out ∧
        out.length = response.length ∧
        ∀ j item, response.get? j = some item →
          ∃ original, results.get? item.index = some original ∧
            out.get? j = some { chunk := original.chunk,
                                score := item.relevance_score,
                                document := original.document } := by
  intro response results hidx
  refine ⟨response.map (cohereEntry results), cohereRerank_ok results response hidx,
    List.length_map .., ?_⟩
  intro j item hj
  have hmem : item ∈ response := List.get?_mem hj
  have hlt : item.index < results.length := hidx item hmem
  have horig : results.get? item.index = some (results.get ⟨item.index, hlt⟩) :=
    List.get?_eq_get hlt
  refine ⟨results.get ⟨item.index, hlt⟩, horig, ?_⟩
  have horig2 : results[item.index]? = some (results.get ⟨item.index, hlt⟩) := by
    simpa [List.get?_eq_getElem?] using horig
  rw [List.get?_map, hj]
  simp [cohereEntry, horig2]

/-- Closed instance of C5: a two-item response in reversed index order
against two candidates. -/
theorem cohere_rerank_maps_indices_back_witness :
    ∃ out,
      cohereRerank [⟨1, 9⟩, ⟨0, 1⟩]
        [⟨{ document_id := 1, content := "a" }, 0, none⟩,
         ⟨{ document_id := 2, content := "b" }, 0, none⟩] = .ok out ∧
      out.length = ([⟨1, 9⟩, ⟨0, 1⟩] : List CohereRerankItem).length ∧
      ∀ j item, ([⟨1, 9⟩, ⟨0, 1⟩] : List CohereRerankItem).get? j = some item →
        ∃ original,
          ([⟨{ document_id := 1, content := "a" }, 0, none⟩,
            ⟨{ document_id := 2, content := "b" }, 0, none⟩] :
              List SearchResultM).get? item.index = some original ∧
          out.get? j = some { chunk := original.chunk,
                              score := item.relevance_score,
                              document := original.document } :=
  cohere_rerank_maps_indices_back [⟨1, 9⟩, ⟨0, 1⟩]
    [⟨{ document_id := 1, content := "a" }, 0, none⟩,
     ⟨{ document_id := 2, content := "b" }, 0, none⟩]
    (by intro item h; fin_cases h <;> decide)

theorem cohereCollect_frame {results : List SearchResultM} :
    ∀ {response : List CohereRerankItem} {out : List SearchResultM},
      cohereCollect results response = .ok out →
      ∀ r ∈ out, ∃ original ∈ results,
        r.chunk = original.chunk ∧ r.document = original.document
  | [], out, hok => by
      simp only [cohereCollect] at hok
      cases hok
      intro r hr
      simp at hr
  | item :: rest, out, hok => by
      intro r hr
      simp only [cohereCollect] at hok
      cases horig : results.get? item.index with
      | none => rw [horig] at hok; cases hok
      | some original =>
          rw [horig] at hok
          cases htail : cohereCollect results rest with
          | error e => rw [htail] at hok; cases hok
          | ok tail =>
              rw [htail] at hok
              cases hok
              rcases List.mem_cons.1 hr with hhead | hmem
              · exact ⟨original, List.get?_mem horig, by rw [hhead], by rw [hhead]⟩
              · exact cohereCollect_frame htail r hmem

/-- C10: re-ranking never fabricates or mutates candidates — every output
of either variant carries the chunk and the document of some input
candidate unchanged; only order, length and scores differ. -/
theorem rerank_frame :
    (∀ (scores : List ℚ) (results : List SearchResultM) (top_k : Nat),
      ∀ r ∈ crossEncoderRerank scores results top_k,
        ∃ original ∈ results, r.chunk = original.chunk ∧ r.document = original.document)
    ∧
    (∀ (response : List CohereRerankItem) (results out : List SearchResultM),
      cohereRerank response results = .ok out →
      ∀ r ∈ out,
        ∃ original ∈ results, r.chunk = original.chunk ∧ r.document = original.document) := by
  constructor
  · intro scores results top_k r hr
    obtain ⟨s, x, _, hx, hre⟩ := mem_crossEncoderRerank hr
    exact ⟨x, hx, by rw [hre], by rw [hre]⟩
  · intro response results out hok r hr
    unfold cohereRerank at hok
    by_cases he : results.isEmpty
    · rw [if_pos he] at hok
      cases hok
      simp at hr
    · rw [if_neg he] at hok
      exact cohereCollect_frame hok r hr

/-- Closed instance of C10: the cross-encoder leg at one candidate. -/
theorem rerank_frame_witness :
    ∃ original ∈ ([⟨{ document_id := 7, content := "x" }, 0, none⟩] : List SearchResultM),
      ({ chunk := { document_id := 7, content := "x" }, score := (2 : ℚ),
         document := none } : SearchResultM).chunk = original.chunk ∧
      ({ chunk := { document_id := 7, content := "x" }, score := (2 : ℚ),
         document := none } : SearchResultM).document = original.document :=
  rerank_frame.1 [(2 : ℚ)] [⟨{ document_id := 7, content := "x" }, 0, none⟩] 3
    { chunk := { document_id := 7, content := "x" }, score := (2 : ℚ),
      document := none } (by decide)

/-- C9: constructing a `ChunkRecord` whose `bbox` has a length other than
4 fails validation, while omitting `bbox` (passing `None`) succeeds. -/
theorem chunkrecord_bbox_validated :
    (∀ (did : Nat) (content : String) (ct : Option String) (pn pos : Option Nat)
        (emb : Option (List ℚ)) (v : List ℚ), v.length ≠ 4 →
        mkChunkRecord did content ct pn pos emb (some v) =
          .error "bbox must contain exactly 4 coordinates [x0, y0, x1, y1]")
    ∧
    (∀ (did : Nat) (content : String) (ct : Option String) (pn pos : Option Nat)
        (emb : Option (List ℚ)),
        mkChunkRecord did content ct pn pos emb none =
          .ok { document_id := did, content := content, chunk_type := ct,
                page_number := pn, position := pos, embedding := emb,
                bbox := none }) := by
  constructor
  · intro did content ct pn pos emb v hv
    simp [mkChunkRecord, validate_bbox, hv, Except.map]
  · intro did content ct pn pos emb
    rfl

/-- Closed instance of C9: a 3-component and a 5-component bbox are both
rejected at construction. -/
theorem chunkrecord_bbox_validated_witness :
    mkChunkRecord 1 "c" none none none none (some [0, 0, 1]) =
      .error "bbox must contain exactly 4 coordinates [x0, y0, x1, y1]" ∧
    mkChunkRecord 1 "c" none none none none (some [0, 0, 1, 1, 2]) =
      .error "bbox must contain exactly 4 coordinates [x0, y0, x1, y1]" :=
  ⟨chunkrecord_bbox_validated.1 1 "c" none none none none [0, 0, 1] (by decide),
   chunkrecord_bbox_validated.1 1 "c" none none none none [0, 0, 1, 1, 2] (by decide)⟩

/-! ## Theorems about the ingestion coordinator -/

theorem insert_chunks_docs (s : DBState) (cs : List ChunkRecordM) :
    (insert_chunks s cs).2.docs = s.docs := by
  unfold insert_chunks
  by_cases h : cs.isEmpty
  · rw [if_pos h]
  · rw [if_neg h]

theorem buildChunkRecords_ok_of_bbox_none (docId : Nat) :
    ∀ cl : List ChunkData, (∀ cd ∈ cl, cd.bbox = none) →
      ∃ recs, buildChunkRecords docId cl = .ok recs
  | [], _ => ⟨[], rfl⟩
  | cd :: rest, h => by
      have hb : cd.bbox = none := h cd (List.mem_cons_self ..)
      obtain ⟨recs, hrecs⟩ := buildChunkRecords_ok_of_bbox_none docId rest
        (fun x hx => h x (List.mem_cons_of_mem _ hx))
      refine ⟨{ document_id := docId, content := cd.content,
                chunk_type := some cd.chunk_type,
                page_number := some cd.page_number,
                position := some cd.position,
                embedding := cd.embedding, bbox := none } :: recs, ?_⟩
      simp [buildChunkRecords, mkChunkRecord, validate_bbox, hb, hrecs, Except.map]

/-- C7: with an allowed-directories restriction configured, an invalid
path is rejected before anything else happens — the state is unchanged and
the event trace is empty, so in particular no hashing and no parsing
occurred — and the two rejection cases are distinct exceptions: a path
missing on disk raises the file-not-found error, while an existing path
resolving outside every allowed directory raises the path-validation
error, and no value of one is a value of the other. -/
theorem path_rejected_before_hash_or_parse :
    ∀ (fs : FileSystemM) (env : StepEnv) (dirs : List PathM) (p : PathM) (s : DBState),
      (fs.pathExists (fs.resolve p) = false →
        ingest_document fs env (some dirs) p s =
          (.error (.fileNotFound (fs.resolve p)), s, [])) ∧
      (fs.pathExists (fs.resolve p) = true →
        (∀ d ∈ dirs, is_relative_to (fs.resolve p) (fs.resolve d) = false) →
        ingest_document fs env (some dirs) p s =
          (.error (.pathValidation (fs.resolve p)), s, [])) ∧
      (∀ q r : PathM, IngestError.fileNotFound q ≠ IngestError.pathValidation r) := by
  intro fs env dirs p s
  refine ⟨?_, ?_, ?_⟩
  · intro h
    simp [ingest_document, validate_file_path, h]
  · intro h1 h2
    have hany : (dirs.map fs.resolve).any (fun d => is_relative_to (fs.resolve p) d) = false := by
      simp only [List.any_map, List.any_eq_false, Function.comp]
      intro d hd
      simp [h2 d hd]
    simp [ingest_document, validate_file_path, h1, hany]
  · intro q r hc
    cases hc

/-- Closed instance of C7: a filesystem on which nothing exists rejects a
configured path with the file-not-found error, touching nothing. -/
theorem path_rejected_before_hash_or_parse_witness :
    ingest_document
      { resolve := fun q => q, pathExists := fun _ => false, hashOf := fun _ => "h" }
      { parse := .ok (), chunk := .ok [], hasEmbeddingClient := false, embed := .ok {} }
      (some [["data"]]) ["tmp", "evil"] {} =
    (.error (.fileNotFound ["tmp", "evil"]), {}, []) :=
  (path_rejected_before_hash_or_parse
    { resolve := fun q => q, pathExists := fun _ => false, hashOf := fun _ => "h" }
    { parse := .ok (), chunk := .ok [], hasEmbeddingClient := false, embed := .ok {} }
    [["data"]] ["tmp", "evil"] {}).1 rfl

/-- C6: once the document row exists, any exception raised by the try body
(parsing, chunking, embedding, chunk persistence or the final status
update) makes the handler attempt to mark that document `error` with the
exception's message, and the original exception propagates to the caller
— also when the error-status update itself fails. -/
theorem ingest_error_marks_status_and_reraises :
    ∀ (env : StepEnv) (doc : DocRow) (s : DBState) (ev : List Event)
      (e : String) (s2 : DBState) (evs : List Event),
      tryBody env doc s = (.error e, s2, evs) →
      (runInsertedDoc env doc s ev).1 = .error (.step e) ∧
      (env.updateErrorErr = none →
        ∀ d ∈ (runInsertedDoc env doc s ev).2.1.docs,
          d.id = doc.id → d.status = "error" ∧ d.error_message = some e) := by
  intro env doc s ev e s2 evs htry
  constructor
  · simp [runInsertedDoc, htry]
  · intro hupd d hd hid
    simp only [runInsertedDoc, htry, hupd] at hd
    simp only [update_document_status, List.mem_map] at hd
    obtain ⟨d0, hd0, hdef⟩ := hd
    by_cases hc : (d0.id == doc.id) = true
    · rw [if_pos hc] at hdef
      rw [← hdef]
      exact ⟨rfl, rfl⟩
    · rw [if_neg hc] at hdef
      rw [← hdef] at hid
      exact absurd (beq_iff_eq.mpr hid) hc

/-- Closed instance of C6: a parse failure on a freshly created document
row re-raises the exception and leaves the row marked `error` with the
exception's message. -/
theorem ingest_error_marks_status_and_reraises_witness :
    (runInsertedDoc
      { parse := .error "boom", chunk := .ok [], hasEmbeddingClient := false, embed := .ok {} }
      { id := 0, file_hash := "h", file_path := "p", status := "processing" }
      { docs := [{ id := 0, file_hash := "h", file_path := "p", status := "processing" }],
        chunks := [], next_id := 1 } []).1 = .error (.step "boom") ∧
    ({ id := 0, file_hash := "h", file_path := "p", status := "error",
       error_message := some "boom" } : DocRow).status = "error" ∧
    ({ id := 0, file_hash := "h", file_path := "p", status := "error",
       error_message := some "boom" } : DocRow).error_message = some "boom" := by
  have h := ingest_error_marks_status_and_reraises
    { parse := .error "boom", chunk := .ok [], hasEmbeddingClient := false, embed := .ok {} }
    { id := 0, file_hash := "h", file_path := "p", status := "processing" }
    { docs := [{ id := 0, file_hash := "h", file_path := "p", status := "processing" }],
      chunks := [], next_id := 1 } [] "boom"
    { docs := [{ id := 0, file_hash := "h", file_path := "p", status := "processing" }],
      chunks := [], next_id := 1 } [] (by decide)
  refine ⟨h.1, ?_⟩
  exact h.2 rfl
    { id := 0, file_hash := "h", file_path := "p", status := "error",
      error_message := some "boom" } (by decide) (by decide)

theorem upd_preserves_hash (did : Nat) (st : String) (msg : Option String) (d : DocRow) :
    (if d.id == did then { d with status := st, error_message := msg } else d).file_hash =
      d.file_hash := by
  by_cases h : (d.id == did) = true
  · rw [if_pos h]
  · rw [if_neg h]

/-- C2: ingesting a valid file into a store that does not yet hold its
hash, with a run whose external steps all succeed, returns a
non-duplicate result; immediately re-ingesting the same file (any step
outcomes, no intervening deletion) returns `was_duplicate = true` with
`chunks_count = 0` and the same document identifier, and leaves the store
— in particular the documents table — exactly as the first run left it. -/
theorem ingest_same_file_twice_is_duplicate :
    ∀ (fs : FileSystemM) (env1 env2 : StepEnv) (p : PathM) (s : DBState)
      (cl : List ChunkData),
      fs.pathExists p = true →
      (∀ d ∈ s.docs, d.file_hash ≠ fs.hashOf p) →
      env1.parse = .ok () →
      env1.chunk = .ok cl →
      env1.hasEmbeddingClient = false →
      (∀ cd ∈ cl, cd.bbox = none) →
      env1.insertChunksErr = none →
      env1.updateProcessedErr = none →
      ∃ r1 s1 tr1 r2 tr2,
        ingest_document fs env1 none p s = (.ok r1, s1, tr1) ∧
        r1.was_duplicate = false ∧
        ingest_document fs env2 none p s1 = (.ok r2, s1, tr2) ∧
        r2.was_duplicate = true ∧
        r2.chunks_count = 0 ∧
        r1.document.isSome = true ∧
        r2.document.map (fun d => d.id) = r1.document.map (fun d => d.id) := by
  intro fs env1 env2 p s cl hex hnodup hp hc hcl hbb hins hupd
  obtain ⟨recs, hrecs⟩ := buildChunkRecords_ok_of_bbox_none s.next_id cl hbb
  have hfind1 : get_document_by_hash s (fs.hashOf p) = none := by
    apply List.find?_eq_none.mpr
    intro d hd
    simp [hnodup d hd]
  -- the document row the first run creates, and the state it leaves
  have hdocid : (insert_document s (fs.hashOf p) (String.intercalate "/" p)).1.id =
      s.next_id := rfl
  have hrun1 : ingest_document fs env1 none p s =
      (.ok { document := some { id := s.next_id, file_hash := fs.hashOf p,
                                file_path := String.intercalate "/" p,
                                status := "processing" },
             chunks_count := (insert_chunks
               { s with docs := s.docs ++ [{ id := s.next_id, file_hash := fs.hashOf p,
                                             file_path := String.intercalate "/" p,
                                             status := "processing" }],
                        next_id := s.next_id + 1 } recs).1.length,
             was_duplicate := false },
       update_document_status
         (insert_chunks
           { s with docs := s.docs ++ [{ id := s.next_id, file_hash := fs.hashOf p,
                                         file_path := String.intercalate "/" p,
                                         status := "processing" }],
                    next_id := s.next_id + 1 } recs).2
         s.next_id "processed" none,
       [Event.hashed, Event.parsed, Event.chunked, Event.embedded,
        Event.chunksInserted, Event.statusUpdated]) := by
    simp [ingest_document, compute_file_hash, hex, hfind1, ingestNew, insert_document,
      runInsertedDoc, tryBody, hp, hc, embedChunks, hcl, hrecs, hins, hupd]
  set doc : DocRow := { id := s.next_id, file_hash := fs.hashOf p,
                        file_path := String.intercalate "/" p,
                        status := "processing" } with hdoc
  set s1 : DBState := update_document_status
    (insert_chunks { s with docs := s.docs ++ [doc], next_id := s.next_id + 1 } recs).2
    s.next_id "processed" none with hs1
  have hs1docs : s1.docs = (s.docs ++ [doc]).map
      (fun d => if d.id == s.next_id
                then { d with status := "processed", error_message := none } else d) := by
    rw [hs1]
    simp [update_document_status, insert_chunks_docs]
  -- the second run finds the processed row by hash
  have hfind2 : get_document_by_hash s1 (fs.hashOf p) =
      some { id := s.next_id, file_hash := fs.hashOf p,
             file_path := String.intercalate "/" p,
             status := "processed", error_message := none } := by
    rw [get_document_by_hash, hs1docs, List.map_append, List.find?_append]
    have hleft : ((s.docs.map
        (fun d => if d.id == s.next_id
                  then { d with status := "processed", error_message := none } else d)).find?
        (fun d => d.file_hash == fs.hashOf p)) = none := by
      apply List.find?_eq_none.mpr
      intro x hx
      obtain ⟨d0, hd0, hdx⟩ := List.mem_map.1 hx
      rw [← hdx, upd_preserves_hash]
      simp [hnodup d0 hd0]
    rw [hleft, Option.none_or]
    simp [hdoc]
  have hne : (("processed" : String) == "error") = false := by decide
  have hrun2 : ingest_document fs env2 none p s1 =
      (.ok { document := some { id := s.next_id, file_hash := fs.hashOf p,
                                file_path := String.intercalate "/" p,
                                status := "processed", error_message := none },
             chunks_count := 0, was_duplicate := true },
       s1, [Event.hashed]) := by
    simp [ingest_document, compute_file_hash, hex, hfind2, hne]
  exact ⟨_, s1, _, _, _, hrun1, rfl, hrun2, rfl, rfl, rfl, rfl⟩

/-- Closed instance of C2: one file, an empty store, a fully successful
first run; the second run reports the duplicate. -/
theorem ingest_same_file_twice_is_duplicate_witness :
    ∃ r1 s1 tr1 r2 tr2,
      ingest_document
        { resolve := fun q => q, pathExists := fun _ => true, hashOf := fun _ => "h1" }
        { parse := .ok (), chunk := .ok [{ content := "c", chunk_type := "paragraph",
                                           page_number := 1, position := 0 }],
          hasEmbeddingClient := false, embed := .ok {} }
        none ["a.pdf"] {} = (.ok r1, s1, tr1) ∧
      r1.was_duplicate = false ∧
      ingest_document
        { resolve := fun q => q, pathExists := fun _ => true, hashOf := fun _ => "h1" }
        { parse := .ok (), chunk := .ok [], hasEmbeddingClient := false, embed := .ok {} }
        none ["a.pdf"] s1 = (.ok r2, s1, tr2) ∧
      r2.was_duplicate = true ∧
      r2.chunks_count = 0 ∧
      r1.document.isSome = true ∧
      r2.document.map (fun d => d.id) = r1.document.map (fun d => d.id) :=
  ingest_same_file_twice_is_duplicate
    { resolve := fun q => q, pathExists := fun _ => true, hashOf := fun _ => "h1" }
    { parse := .ok (), chunk := .ok [{ content := "c", chunk_type := "paragraph",
                                       page_number := 1, position := 0 }],
      hasEmbeddingClient := false, embed := .ok {} }
    { parse := .ok (), chunk := .ok [], hasEmbeddingClient := false, embed := .ok {} }
    ["a.pdf"] {} [{ content := "c", chunk_type := "paragraph",
                    page_number := 1, position := 0 }]
    rfl (by intro d hd; simp at hd) rfl rfl rfl
    (by intro cd hcd; simp at hcd; rw [hcd]) rfl rfl

/-! ## Theorems about batch ingestion -/

theorem find?_keyed_map (f : Nat → IngestResultM) :
    ∀ (order : List Nat) (i : Nat), i ∈ order →
      ((order.map (fun j => (j, f j))).find? (fun pr => pr.1 == i)) = some (i, f i)
  | [], i, h => absurd h (List.not_mem_nil i)
  | j :: rest, i, h => by
      by_cases hj : j = i
      · subst hj
        simp [List.find?]
      · have hmem : i ∈ rest := by
          rcases List.mem_cons.1 h with hji | hmem
          · exact absurd hji.symm hj
          · exact hmem
        have hne : ¬ ((fun pr : Nat × IngestResultM => pr.1 == i) (j, f j) = true) := by
          simp [hj]
        rw [List.map_cons,
          @List.find?_cons_of_neg (Nat × IngestResultM) (fun pr => pr.1 == i) (j, f j) _ hne]
        exact find?_keyed_map f rest i hmem

/-- C3 (amended to the backend variant): `ingest_batch` returns exactly
one result per input path, assembled in input order regardless of the
order in which workers complete, and a file whose ingestion raises
contributes an error entry while every other file is still processed and
reported. -/
theorem ingest_batch_one_result_per_input :
    ∀ (outcome : Nat → Except String IngestResultM) (total max_workers : Nat)
      (completion_order : List Nat),
      List.Perm completion_order (List.range total) →
      ingest_batch outcome total max_workers completion_order =
        (List.range total).map (batchEntry outcome) ∧
      (ingest_batch outcome total max_workers completion_order).length = total ∧
      (∀ i e, i < total → outcome i = .error e →
        (ingest_batch outcome total max_workers completion_order).get? i =
          some { error := some e }) ∧
      (∀ i r, i < total → outcome i = .ok r →
        (ingest_batch outcome total max_workers completion_order).get? i = some r) := by
  intro outcome total max_workers completion_order hperm
  have hmain : ingest_batch outcome total max_workers completion_order =
      (List.range total).map (batchEntry outcome) := by
    unfold ingest_batch
    by_cases h0 : total = 0
    · rw [if_pos h0, h0]
      simp
    · rw [if_neg h0]
      by_cases hw : max_workers = 1
      · rw [if_pos hw]
        apply List.map_congr_left
        intro i hi
        rw [find?_keyed_map (batchEntry outcome) (List.range total) i hi]
        rfl
      · rw [if_neg hw]
        apply List.map_congr_left
        intro i hi
        have hi2 : i ∈ completion_order := hperm.mem_iff.2 hi
        rw [find?_keyed_map (batchEntry outcome) completion_order i hi2]
        rfl
  have hget : ∀ i, i < total →
      (ingest_batch outcome total max_workers completion_order).get? i =
        some (batchEntry outcome i) := by
    intro i hi
    rw [hmain, List.get?_eq_getElem?, List.getElem?_map, List.getElem?_range hi]
    rfl
  refine ⟨hmain, ?_, ?_, ?_⟩
  · rw [hmain, List.length_map, List.length_range]
  · intro i e hi he
    rw [hget i hi]
    simp [batchEntry, he]
  · intro i r hi hr
    rw [hget i hi]
    simp [batchEntry, hr]

/-- Closed instance of the amended C3: two files, the second raising,
completing in reversed order, still yield two results in input order with
the failure captured in place. -/
theorem ingest_batch_one_result_per_input_witness :
    ingest_batch
      (fun i => if i == 0
        then .ok { chunks_count := 3 }
        else .error "File not found: missing.pdf") 2 4 [1, 0] =
      (List.range 2).map (batchEntry (fun i => if i == 0
        then .ok { chunks_count := 3 }
        else .error "File not found: missing.pdf")) ∧
    (ingest_batch
      (fun i => if i == 0
        then .ok { chunks_count := 3 }
        else .error "File not found: missing.pdf") 2 4 [1, 0]).length = 2 :=
  by
  have h := ingest_batch_one_result_per_input
    (fun i => if i == 0
      then .ok { chunks_count := 3 }
      else .error "File not found: missing.pdf") 2 4 [1, 0] (by decide)
  exact ⟨h.1, h.2.1⟩

/-- C3 counterexample: the legacy variant of `ingest_batch` (src
`ingestion.py`) skips a file whose ingestion raises instead of recording
an error entry — with two input files of which the second raises, its
result list has length 1, not one result per input path. -/
theorem legacy_ingest_batch_drops_failed_files :
    (legacy_ingest_batch
      (fun i => if i == 0
        then .ok { document := { id := 0, file_hash := "h0", file_path := "a.pdf",
                                 status := "processed" },
                   chunks_count := 1 }
        else .error "File not found: missing.pdf") 2).length ≠ 2 := by
  decide

/-! ## Theorems about the embedding client -/

theorem splitStep_invariant :
    ∀ (texts : List String) (B : List (List String)) (C : List String) (T : Nat),
      (texts.foldl splitStep (B, C, T)).1.flatten ++
          (texts.foldl splitStep (B, C, T)).2.1 =
        B.flatten ++ C ++ texts
  | [], B, C, T => by simp
  | t :: ts, B, C, T => by
      rw [List.foldl_cons]
      by_cases h1 : estimate_tokens t ≥ MAX_TOKENS_PER_BATCH
      · by_cases h2 : C.isEmpty
        · have hC : C = [] := List.isEmpty_iff.1 h2
          have hstep : splitStep (B, C, T) t = (B ++ [[t]], [], 0) := by
            unfold splitStep
            dsimp only
            rw [if_pos h1, if_pos h2]
          rw [hstep, splitStep_invariant ts (B ++ [[t]]) [] 0]
          simp [hC]
        · have hstep : splitStep (B, C, T) t = (B ++ [C, [t]], [], 0) := by
            unfold splitStep
            dsimp only
            rw [if_pos h1, if_neg h2]
          rw [hstep, splitStep_invariant ts (B ++ [C, [t]]) [] 0]
          simp
      · by_cases h2 : T + estimate_tokens t > MAX_TOKENS_PER_BATCH
        · have hstep : splitStep (B, C, T) t = (B ++ [C], [t], estimate_tokens t) := by
            unfold splitStep
            dsimp only
            rw [if_neg h1, if_pos h2]
          rw [hstep, splitStep_invariant ts (B ++ [C]) [t] (estimate_tokens t)]
          simp
        · have hstep : splitStep (B, C, T) t = (B, C ++ [t], T + estimate_tokens t) := by
            unfold splitStep
            dsimp only
            rw [if_neg h1, if_neg h2]
          rw [hstep, splitStep_invariant ts B (C ++ [t]) (T + estimate_tokens t)]
          simp

theorem split_into_batches_flatten (texts : List String) :
    (_split_into_batches texts).flatten = texts := by
  unfold _split_into_batches
  have h := splitStep_invariant texts [] [] 0
  by_cases h2 : (texts.foldl splitStep ([], [], 0)).2.1.isEmpty
  · rw [if_pos h2]
    have he : (texts.foldl splitStep ([], [], 0)).2.1 = [] := List.isEmpty_iff.1 h2
    rw [he] at h
    simpa using h
  · rw [if_neg h2]
    simpa using h

theorem foldl_set_length (pairs : List (Nat × Option (List ℚ))) :
    ∀ l : List (Option (List ℚ)),
      (pairs.foldl (fun l pr => l.set pr.1 pr.2) l).length = l.length := by
  induction pairs with
  | nil => intro l; rfl
  | cons pr rest ih =>
      intro l
      rw [List.foldl_cons, ih, List.length_set]

theorem fillEmbeddings_length (n : Nat) (data : List (Nat × List ℚ)) :
    (fillEmbeddings n data).length = n := by
  unfold fillEmbeddings
  have hfold : ∀ (d : List (Nat × List ℚ)) (l : List (Option (List ℚ))),
      (d.foldl (fun embs item => embs.set item.1 (some item.2)) l).length = l.length := by
    intro d
    induction d with
    | nil => intro l; rfl
    | cons item rest ih =>
        intro l
        rw [List.foldl_cons, ih, List.length_set]
  rw [hfold, List.length_replicate]

theorem retryLoop_length (api : Nat → ApiOutcome) (texts : List String) :
    ∀ (fuel attempt : Nat) (le : Option String),
      (retryLoop api texts fuel attempt le).embeddings.length = texts.length
  | 0, _, _ => by simp [retryLoop]
  | fuel + 1, attempt, le => by
      unfold retryLoop
      cases api attempt with
      | success data =>
          dsimp only
          exact fillEmbeddings_length ..
      | rateLimit msg =>
          dsimp only
          exact retryLoop_length api texts fuel (attempt + 1) (some msg)
      | apiStatus code msg =>
          dsimp only
          by_cases h : code ≥ 500
          · rw [if_pos h]
            exact retryLoop_length api texts fuel (attempt + 1) (some msg)
          · rw [if_neg h]
            simp
      | other msg => simp

theorem retryLoop_error_embeddings (api : Nat → ApiOutcome) (texts : List String) :
    ∀ (fuel attempt : Nat) (le : Option String) (e : String),
      (retryLoop api texts fuel attempt le).error = some e →
      (retryLoop api texts fuel attempt le).embeddings =
        List.replicate texts.length none
  | 0, _, _, e => by simp [retryLoop]
  | fuel + 1, attempt, le, e => by
      unfold retryLoop
      cases api attempt with
      | success data =>
          dsimp only
          intro h
          cases h
      | rateLimit msg =>
          dsimp only
          exact retryLoop_error_embeddings api texts fuel (attempt + 1) (some msg) e
      | apiStatus code msg =>
          dsimp only
          by_cases h : code ≥ 500
          · rw [if_pos h]
            exact retryLoop_error_embeddings api texts fuel (attempt + 1) (some msg) e
          · rw [if_neg h]
            intro _
            rfl
      | other msg =>
          dsimp only
          intro _
          rfl

theorem generate_batch_length (api : Nat → ApiOutcome) (texts : List String) :
    (_generate_batch_with_retry api texts).embeddings.length = texts.length :=
  retryLoop_length api texts MAX_RETRIES 0 none

theorem generate_batch_error_embeddings (api : Nat → ApiOutcome) (texts : List String)
    (e : String) (h : (_generate_batch_with_retry api texts).error = some e) :
    (_generate_batch_with_retry api texts).embeddings =
      List.replicate texts.length none :=
  retryLoop_error_embeddings api texts MAX_RETRIES 0 none e h

theorem genLoop_cons (api : Nat → Nat → ApiOutcome) (b : List String)
    (idxs : List Nat) (rest : List (List String × List Nat)) (bidx : Nat)
    (res : EmbeddingResultM) :
    genLoop api ((b, idxs) :: rest) bidx res =
      genLoop api rest (bidx + 1)
        (mergeBatch res idxs (_generate_batch_with_retry (api bidx) b)) := rfl

theorem mergeBatch_embeddings (res : EmbeddingResultM) (idxs : List Nat)
    (br : BatchOut) :
    (mergeBatch res idxs br).embeddings =
      (List.zip idxs br.embeddings).foldl (fun l pr => l.set pr.1 pr.2)
        res.embeddings := by
  rcases br with ⟨embs, err⟩
  cases err <;> rfl

theorem mergeBatch_length (res : EmbeddingResultM) (idxs : List Nat)
    (br : BatchOut) :
    (mergeBatch res idxs br).embeddings.length = res.embeddings.length := by
  rw [mergeBatch_embeddings, foldl_set_length]

theorem mergeBatch_failed_mono (res : EmbeddingResultM) (idxs : List Nat)
    (br : BatchOut) (i : Nat) (h : i ∈ res.failed_indices) :
    i ∈ (mergeBatch res idxs br).failed_indices := by
  rcases br with ⟨embs, err⟩
  cases err with
  | none => exact h
  | some e =>
      simp only [mergeBatch, List.mem_append]
      exact Or.inl h

theorem mergeBatch_failed_mem (res : EmbeddingResultM) (idxs : List Nat)
    (br : BatchOut) (i : Nat) (e : String) (herr : br.error = some e)
    (h : i ∈ idxs) : i ∈ (mergeBatch res idxs br).failed_indices := by
  rcases br with ⟨embs, err⟩
  cases err with
  | none => cases herr
  | some e2 =>
      simp only [mergeBatch, List.mem_append]
      exact Or.inr h

theorem foldl_set_frame (i : Nat) :
    ∀ (pairs : List (Nat × Option (List ℚ))) (l : List (Option (List ℚ))),
      (∀ pr ∈ pairs, pr.1 ≠ i) →
      (pairs.foldl (fun l pr => l.set pr.1 pr.2) l)[i]? = l[i]?
  | [], _, _ => rfl
  | pr :: rest, l, h => by
      rw [List.foldl_cons,
        foldl_set_frame i rest (l.set pr.1 pr.2)
          (fun q hq => h q (List.mem_cons_of_mem _ hq))]
      exact List.getElem?_set_ne (h pr (List.mem_cons_self ..))

theorem foldl_set_range' :
    ∀ (len o j : Nat) (es : List (Option (List ℚ))) (l : List (Option (List ℚ))),
      es.length = len → o + len ≤ l.length → j < len →
      ((List.zip (List.range' o len) es).foldl (fun l pr => l.set pr.1 pr.2) l)[o + j]? =
        es[j]?
  | 0, _, j, _, _, _, _, hj => absurd hj (Nat.not_lt_zero j)
  | m + 1, o, j, es, l, hes, hle, hj => by
      cases es with
      | nil => cases hes
      | cons e0 rest =>
          rw [List.range'_succ, List.zip_cons_cons, List.foldl_cons]
          have ho : o < l.length := by omega
          dsimp only
          cases j with
          | zero =>
              show (List.foldl (fun l pr => l.set pr.1 pr.2) (l.set o e0)
                ((List.range' (o + 1) m).zip rest))[o]? = (e0 :: rest)[0]?
              rw [foldl_set_frame o (List.zip (List.range' (o + 1) m) rest) (l.set o e0) ?_]
              · rw [List.getElem?_set_self ho]
                simp
              · intro pr hpr
                have hfst : pr.1 ∈ List.range' (o + 1) m := (List.of_mem_zip hpr).1
                have : o + 1 ≤ pr.1 := (List.mem_range'_1.1 hfst).1
                omega
          | succ j0 =>
              have hle2 : o + 1 + m ≤ (l.set o e0).length := by
                rw [List.length_set]
                omega
              have hes2 : rest.length = m := by
                simpa using hes
              have hj2 : j0 < m := by omega
              have harith : o + (j0 + 1) = (o + 1) + j0 := by omega
              rw [harith, foldl_set_range' m (o + 1) j0 rest (l.set o e0) hes2 hle2 hj2]
              simp

theorem mergeBatch_get_at (res : EmbeddingResultM) (br : BatchOut)
    (o len j : Nat) (hbr : br.embeddings.length = len)
    (hle : o + len ≤ res.embeddings.length) (hj : j < len) :
    (mergeBatch res (List.range' o len) br).embeddings[o + j]? =
      br.embeddings[j]? := by
  rw [mergeBatch_embeddings]
  exact foldl_set_range' len o j br.embeddings res.embeddings hbr hle hj

theorem genLoop_failed_mono (api : Nat → Nat → ApiOutcome) :
    ∀ (pairs : List (List String × List Nat)) (bidx : Nat)
      (res : EmbeddingResultM) (i : Nat),
      i ∈ res.failed_indices → i ∈ (genLoop api pairs bidx res).failed_indices
  | [], _, _, _, h => h
  | (b, idxs) :: rest, bidx, res, i, h =>
      genLoop_failed_mono api rest (bidx + 1) _ i
        (mergeBatch_failed_mono res idxs _ i h)

theorem genLoop_emb_frame (api : Nat → Nat → ApiOutcome) :
    ∀ (bs : List (List String)) (o bidx : Nat) (res : EmbeddingResultM) (i : Nat),
      i < o →
      (genLoop api (List.zip bs (getBatchIndicesFrom o bs)) bidx res).embeddings[i]? =
        res.embeddings[i]?
  | [], _, _, _, _, _ => rfl
  | b :: rest, o, bidx, res, i, hio => by
      rw [getBatchIndicesFrom, List.zip_cons_cons]
      show (genLoop api _ (bidx + 1) _).embeddings[i]? = _
      rw [genLoop_emb_frame api rest (o + b.length) (bidx + 1) _ i (by omega)]
      rw [mergeBatch_embeddings]
      apply foldl_set_frame
      intro pr hpr
      have hfst : pr.1 ∈ List.range' o b.length := (List.of_mem_zip hpr).1
      have : o ≤ pr.1 := (List.mem_range'_1.1 hfst).1
      omega

theorem genLoop_length (api : Nat → Nat → ApiOutcome) :
    ∀ (bs : List (List String)) (o bidx : Nat) (res : EmbeddingResultM),
      (genLoop api (List.zip bs (getBatchIndicesFrom o bs)) bidx res).embeddings.length =
        res.embeddings.length
  | [], _, _, _ => rfl
  | b :: rest, o, bidx, res => by
      rw [getBatchIndicesFrom, List.zip_cons_cons]
      show (genLoop api _ (bidx + 1) _).embeddings.length = _
      rw [genLoop_length api rest (o + b.length) (bidx + 1) _, mergeBatch_length]

theorem genLoop_batch_entry (api : Nat → Nat → ApiOutcome) (bs : List (List String)) :
    ∀ (o bidx k : Nat) (b : List String) (idxs : List Nat) (res : EmbeddingResultM),
      bs[k]? = some b →
      (getBatchIndicesFrom o bs)[k]? = some idxs →
      o + (bs.map List.length).sum ≤ res.embeddings.length →
      ∀ (j i : Nat), idxs[j]? = some i →
        (genLoop api (List.zip bs (getBatchIndicesFrom o bs)) bidx res).embeddings[i]? =
          (_generate_batch_with_retry (api (bidx + k)) b).embeddings[j]? := by
  induction bs with
  | nil =>
      intro o bidx k b idxs res hb
      cases hb
  | cons b0 rest ih =>
      intro o bidx k b idxs res hb hidxs hsum j i hji
      rw [getBatchIndicesFrom] at hidxs
      rw [getBatchIndicesFrom, List.zip_cons_cons, genLoop_cons]
      cases k with
      | zero =>
          have hb0 : b = b0 := by simpa using hb.symm
          have hidxs0 : idxs = List.range' o b0.length := by simpa using hidxs.symm
          subst hb0
          subst hidxs0
          have hjlen : j < b.length := by
            have := List.getElem?_eq_some_iff.1 hji
            obtain ⟨hlt, _⟩ := this
            simpa using hlt
          have hio : i = o + j := by
            rw [List.getElem?_range' o 1 hjlen] at hji
            have hsome := Option.some_inj.1 hji
            omega
          subst hio
          rw [genLoop_emb_frame api rest (o + b.length) (bidx + 1) _ (o + j) (by omega)]
          rw [Nat.add_zero]
          apply mergeBatch_get_at res _ o b.length j (generate_batch_length ..)
          · have hsm : b.length ≤ (List.map List.length (b :: rest)).sum := by
              simp [List.sum_cons]
            omega
          · exact hjlen
      | succ k0 =>
          have hb1 : rest[k0]? = some b := by simpa using hb
          have hidxs1 : (getBatchIndicesFrom (o + b0.length) rest)[k0]? = some idxs := by
            simpa using hidxs
          have hsum1 : (o + b0.length) + (rest.map List.length).sum ≤
              (mergeBatch res (List.range' o b0.length)
                (_generate_batch_with_retry (api bidx) b0)).embeddings.length := by
            rw [mergeBatch_length]
            simp only [List.map_cons, List.sum_cons] at hsum
            omega
          have harith : bidx + 1 + k0 = bidx + (k0 + 1) := by omega
          rw [← harith]
          exact ih (o + b0.length) (bidx + 1) k0 b idxs _ hb1 hidxs1 hsum1 j i hji

theorem genLoop_batch_failed (api : Nat → Nat → ApiOutcome) (bs : List (List String)) :
    ∀ (o bidx k : Nat) (b : List String) (idxs : List Nat) (res : EmbeddingResultM)
      (e : String),
      bs[k]? = some b →
      (getBatchIndicesFrom o bs)[k]? = some idxs →
      (_generate_batch_with_retry (api (bidx + k)) b).error = some e →
      ∀ i ∈ idxs,
        i ∈ (genLoop api (List.zip bs (getBatchIndicesFrom o bs)) bidx res).failed_indices := by
  induction bs with
  | nil =>
      intro o bidx k b idxs res e hb
      cases hb
  | cons b0 rest ih =>
      intro o bidx k b idxs res e hb hidxs herr i hi
      rw [getBatchIndicesFrom] at hidxs
      rw [getBatchIndicesFrom, List.zip_cons_cons, genLoop_cons]
      cases k with
      | zero =>
          have hb0 : b = b0 := by simpa using hb.symm
          have hidxs0 : idxs = List.range' o b0.length := by simpa using hidxs.symm
          subst hb0
          subst hidxs0
          rw [Nat.add_zero] at herr
          exact genLoop_failed_mono api _ (bidx + 1) _ i
            (mergeBatch_failed_mem res _ _ i e herr hi)
      | succ k0 =>
          have hb1 : rest[k0]? = some b := by simpa using hb
          have hidxs1 : (getBatchIndicesFrom (o + b0.length) rest)[k0]? = some idxs := by
            simpa using hidxs
          have harith : bidx + 1 + k0 = bidx + (k0 + 1) := by omega
          have herr1 : (_generate_batch_with_retry (api (bidx + 1 + k0)) b).error = some e := by
            rw [harith]
            exact herr
          exact ih (o + b0.length) (bidx + 1) k0 b idxs _ e hb1 hidxs1 herr1 i hi

theorem getBatchIndicesFrom_entry_length :
    ∀ (bs : List (List String)) (o k : Nat) (b : List String) (idxs : List Nat),
      bs[k]? = some b → (getBatchIndicesFrom o bs)[k]? = some idxs →
      idxs.length = b.length
  | [], _, _, _, _, hb, _ => by cases hb
  | b0 :: rest, o, k, b, idxs, hb, hidxs => by
      rw [getBatchIndicesFrom] at hidxs
      cases k with
      | zero =>
          have hb0 : b = b0 := by simpa using hb.symm
          have hidxs0 : idxs = List.range' o b0.length := by simpa using hidxs.symm
          subst hb0
          subst hidxs0
          simp
      | succ k0 =>
          have hb1 : rest[k0]? = some b := by simpa using hb
          have hidxs1 : (getBatchIndicesFrom (o + b0.length) rest)[k0]? = some idxs := by
            simpa using hidxs
          exact getBatchIndicesFrom_entry_length rest (o + b0.length) k0 b idxs hb1 hidxs1

/-- C8: `generate_embeddings` returns one (optional) embedding slot per
input text; whatever the internal batching, the slot of the i-th text is
exactly what the retry wrapper produced at that text's position within
its batch — so input order is preserved — and every text of a batch whose
API call ultimately failed ends with an absent embedding and its index
recorded in `failed_indices`, instead of the call raising. -/
theorem generate_embeddings_order_and_failures :
    ∀ (api : Nat → Nat → ApiOutcome) (texts : List String),
      (generate_embeddings api texts).embeddings.length = texts.length ∧
      (∀ (k : Nat) (b : List String) (idxs : List Nat),
        (_split_into_batches texts)[k]? = some b →
        (_get_batch_indices (_split_into_batches texts))[k]? = some idxs →
        ∀ (j i : Nat), idxs[j]? = some i →
          (generate_embeddings api texts).embeddings[i]? =
            (_generate_batch_with_retry (api k) b).embeddings[j]?) ∧
      (∀ (k : Nat) (b : List String) (idxs : List Nat) (e : String),
        (_split_into_batches texts)[k]? = some b →
        (_get_batch_indices (_split_into_batches texts))[k]? = some idxs →
        (_generate_batch_with_retry (api k) b).error = some e →
        ∀ i ∈ idxs,
          (generate_embeddings api texts).embeddings[i]? = some none ∧
          i ∈ (generate_embeddings api texts).failed_indices) := by
  intro api texts
  by_cases hemp : texts.isEmpty
  · have htexts : texts = [] := List.isEmpty_iff.1 hemp
    subst htexts
    refine ⟨rfl, ?_, ?_⟩
    · intro k b idxs hb
      cases hb
    · intro k b idxs e hb
      cases hb
  · have hgen : generate_embeddings api texts =
        genLoop api
          (List.zip (_split_into_batches texts)
            (getBatchIndicesFrom 0 (_split_into_batches texts))) 0
          { embeddings := List.replicate texts.length none } := by
      unfold generate_embeddings
      rw [if_neg hemp]
      rfl
    have hlensum : ((_split_into_batches texts).map List.length).sum = texts.length := by
      rw [← List.length_flatten, split_into_batches_flatten]
    have hsum : 0 + ((_split_into_batches texts).map List.length).sum ≤
        ({ embeddings := List.replicate texts.length none } :
          EmbeddingResultM).embeddings.length := by
      simp [hlensum]
    refine ⟨?_, ?_, ?_⟩
    · rw [hgen, genLoop_length api (_split_into_batches texts) 0 0 _]
      simp
    · intro k b idxs hb hidxs j i hji
      unfold _get_batch_indices at hidxs
      rw [hgen]
      have h := genLoop_batch_entry api (_split_into_batches texts) 0 0 k b idxs
        { embeddings := List.replicate texts.length none } hb hidxs hsum j i hji
      rwa [Nat.zero_add] at h
    · intro k b idxs e hb hidxs herr i hi
      unfold _get_batch_indices at hidxs
      obtain ⟨j, hjlt, hj⟩ := List.mem_iff_getElem.1 hi
      have hji : idxs[j]? = some i := by
        rw [List.getElem?_eq_getElem hjlt, hj]
      constructor
      · rw [hgen]
        have h := genLoop_batch_entry api (_split_into_batches texts) 0 0 k b idxs
          { embeddings := List.replicate texts.length none } hb hidxs hsum j i hji
        rw [Nat.zero_add] at h
        rw [h, generate_batch_error_embeddings (api k) b e herr]
        have hjb : j < b.length := by
          rw [← getBatchIndicesFrom_entry_length (_split_into_batches texts) 0 k b idxs hb hidxs]
          exact hjlt
        simp [hjb]
      · rw [hgen]
        have herr0 : (_generate_batch_with_retry (api (0 + k)) b).error = some e := by
          rwa [Nat.zero_add]
        exact genLoop_batch_failed api (_split_into_batches texts) 0 0 k b idxs
          { embeddings := List.replicate texts.length none } e hb hidxs herr0 i hi

/-- Closed instance of C8: two short texts form one batch; the API always
raising makes both texts get an absent embedding, with index 0 recorded as
failed. -/
theorem generate_embeddings_order_and_failures_witness :
    (generate_embeddings (fun _ _ => ApiOutcome.other "boom") ["aa", "bb"]).embeddings.length =
      (["aa", "bb"] : List String).length ∧
    (generate_embeddings (fun _ _ => ApiOutcome.other "boom") ["aa", "bb"]).embeddings[0]? =
      some none ∧
    0 ∈ (generate_embeddings (fun _ _ => ApiOutcome.other "boom") ["aa", "bb"]).failed_indices := by
  have h := generate_embeddings_order_and_failures (fun _ _ => ApiOutcome.other "boom")
    ["aa", "bb"]
  have h3 := h.2.2 0 ["aa", "bb"] [0, 1] "boom" (by decide) (by decide) (by decide)
    0 (by decide)
  exact ⟨h.1, h3.1, h3.2⟩

/-! ## Theorems about hybrid search -/

theorem sort_take_ids_nodup (l : List SearchResultM) (k : Nat)
    (h : (l.map fun r => r.chunk.id).Nodup) :
    (((List.insertionSort resultGE l).take k).map fun r => r.chunk.id).Nodup := by
  have hperm : List.Perm ((List.insertionSort resultGE l).map fun r => r.chunk.id)
      (l.map fun r => r.chunk.id) :=
    (List.perm_insertionSort resultGE l).map _
  have hsorted : ((List.insertionSort resultGE l).map fun r => r.chunk.id).Nodup :=
    hperm.nodup_iff.2 h
  rw [List.map_take]
  exact hsorted.sublist (List.take_sublist ..)

theorem vector_search_base_ids_nodup (sim : List ℚ → List ℚ → ℚ)
    (rows : List (ChunkRecordM × IngestedDocumentM)) (qe : List ℚ)
    (h : (rows.map fun r => r.1.id).Nodup) :
    (((rows.filter fun r => r.1.embedding.isSome).map fun r =>
      ({ chunk := r.1, score := sim (r.1.embedding.getD []) qe,
         document := some r.2 } : SearchResultM)).map fun r => r.chunk.id).Nodup := by
  rw [List.map_map]
  have hsub : ((rows.filter fun r => r.1.embedding.isSome).map fun r => r.1.id).Sublist
      (rows.map fun r => r.1.id) :=
    (List.filter_sublist rows).map _
  exact h.sublist hsub

theorem lexical_ids_sublist (lex : String → String → Option ℚ) (qt : String) :
    ∀ rows : List (ChunkRecordM × IngestedDocumentM),
      ((rows.filterMap fun r => (lex qt r.1.content).map fun sc =>
          ({ chunk := r.1, score := sc, document := some r.2 } : SearchResultM)).map
        fun r => r.chunk.id).Sublist (rows.map fun r => r.1.id)
  | [] => List.Sublist.slnil
  | r :: rest => by
      cases hcase : lex qt r.1.content with
      | none =>
          rw [List.filterMap_cons_none (by rw [hcase]; rfl), List.map_cons]
          exact (lexical_ids_sublist lex qt rest).cons _
      | some sc =>
          rw [List.filterMap_cons_some (by rw [hcase]; rfl), List.map_cons,
            List.map_cons]
          exact (lexical_ids_sublist lex qt rest).cons₂ _

theorem mergeDedup_ids_map (vec lexr : List SearchResultM) :
    ((vec.map fun v =>
      match lexr.find? (fun l => l.chunk.id == v.chunk.id) with
      | some l => { v with score := fuseScore v.score l.score }
      | none => v).map fun r => r.chunk.id) = vec.map fun r => r.chunk.id := by
  rw [List.map_map]
  apply List.map_congr_left
  intro v hv
  rcases hfind : lexr.find? (fun l => l.chunk.id == v.chunk.id) with _ | l <;>
    simp [Function.comp, hfind]

theorem mergeDedup_ids_nodup (vec lexr : List SearchResultM)
    (hv : (vec.map fun r => r.chunk.id).Nodup)
    (hl : (lexr.map fun r => r.chunk.id).Nodup) :
    ((mergeDedup vec lexr).map fun r => r.chunk.id).Nodup := by
  unfold mergeDedup
  rw [List.map_append]
  refine List.Nodup.append ?_ ?_ ?_
  · rw [mergeDedup_ids_map]
    exact hv
  · have hsub : ((lexr.filter fun l => !(vec.any fun v => v.chunk.id == l.chunk.id)).map
        fun r => r.chunk.id).Sublist (lexr.map fun r => r.chunk.id) :=
      (List.filter_sublist lexr).map _
    exact hl.sublist hsub
  · rw [mergeDedup_ids_map]
    intro a hav hafilt
    obtain ⟨l, hlmem, hlid⟩ := List.mem_map.1 hafilt
    have hcond := List.of_mem_filter hlmem
    rw [Bool.not_eq_eq_eq_not, Bool.not_true, List.any_eq_false] at hcond
    obtain ⟨v, hvmem, hvid⟩ := List.mem_map.1 hav
    have := hcond v hvmem
    rw [hvid, ← hlid] at this
    simp at this

/-- C1: for every query embedding, query text and `top_k`, and every
store whose chunk identifiers are pairwise distinct (the primary key of
the chunks table), `hybrid_search` returns no two entries with the same
chunk identifier — also when a chunk is a candidate of both the vector
leg and the lexical leg. -/
theorem hybrid_search_no_duplicate_chunk_ids :
    ∀ (sim : List ℚ → List ℚ → ℚ) (lex : String → String → Option ℚ)
      (rows : List (ChunkRecordM × IngestedDocumentM)) (qe : List ℚ)
      (qt : String) (top_k : Nat),
      (rows.map fun r => r.1.id).Nodup →
      ((hybrid_search sim lex rows qe qt top_k).map fun r => r.chunk.id).Nodup := by
  intro sim lex rows qe qt top_k h
  unfold hybrid_search
  apply sort_take_ids_nodup
  apply mergeDedup_ids_nodup
  · unfold vector_search
    apply sort_take_ids_nodup
    exact vector_search_base_ids_nodup sim rows qe h
  · unfold lexical_search
    apply sort_take_ids_nodup
    exact h.sublist (lexical_ids_sublist lex qt rows)

/-- Closed instance of C1: two stored chunks, both with embeddings, the
first also a lexical match for the query — present in both legs, returned
once. -/
theorem hybrid_search_no_duplicate_chunk_ids_witness :
    ((hybrid_search (fun _ _ => 1)
      (fun _ c => if c == "securities fraud class action" then some 2 else none)
      [({ id := some 1, document_id := 10, content := "securities fraud class action",
          embedding := some [1] }, { id := 10, file_hash := "h", file_path := "p" }),
       ({ id := some 2, document_id := 10, content := "quarterly earnings",
          embedding := some [1] }, { id := 10, file_hash := "h", file_path := "p" })]
      [1] "securities fraud class action" 5).map fun r => r.chunk.id).Nodup :=
  hybrid_search_no_duplicate_chunk_ids (fun _ _ => 1)
    (fun _ c => if c == "securities fraud class action" then some 2 else none)
    [({ id := some 1, document_id := 10, content := "securities fraud class action",
        embedding := some [1] }, { id := 10, file_hash := "h", file_path := "p" }),
     ({ id := some 2, document_id := 10, content := "quarterly earnings",
        embedding := some [1] }, { id := 10, file_hash := "h", file_path := "p" })]
    [1] "securities fraud class action" 5 (by decide)

end PdfRag
